import Mathlib

/-!
Verification development for the jinja template-engine repository.

Shallow embedding of the parts of the code base the verified properties
talk about: the identifier/scope tracker (`idtracking.py`), the AST
optimizer (`optimizer.py`), macro argument binding and the Undefined
value family (`runtime.py`), the token stream and the tokenizer loop
(`lexer.py`), and the LRU cache (`utils.py`).

Python dictionaries are embedded as association lists (first occurrence
wins, update in place), Python sets as duplicate-free lists, deques as
lists with explicit front/back operations, and raising code as
`Except`-valued functions.
-/

namespace Jinja

/-! ## AST node model (`nodes.py`)

A tagged-variant type covering the node kinds that the scope tracker and
the optimizer dispatch on, plus representative other kinds (`output`,
`template`, `tuple`, `add`, `ifStmt`) that fall to the generic visitor.
`lineno` fields are omitted: none of the embedded passes reads them. -/

inductive Node where
  | name (nm ctx : String)
  | const (value : Int)
  | list (items : List Node)
  | tuple (items : List Node) (ctx : String)
  | dict (items : List (Node × Node))
  | getitem (node arg : Node) (ctx : String)
  | getattr (node : Node) (attr ctx : String)
  | call (node : Node) (args : List Node) (kwargs : List (String × Node))
  | filter (node : Node) (nm : String) (args : List Node) (kwargs : List (String × Node))
  | test (node : Node) (nm : String) (args : List Node) (kwargs : List (String × Node))
  | condExpr (tst expr1 expr2 : Node)
  | add (left right : Node)
  | assign (target node : Node)
  | assignBlock (target : Node) (filterNode : Option Node) (body : List Node)
  | forStmt (target iter : Node) (body elseBody : List Node) (recursive : Bool)
  | ifStmt (tst : Node) (body elifBody elseBody : List Node)
  | block (nm : String) (body : List Node) (isScoped required : Bool)
  | scope (body : List Node)
  | overlayScope (context : Node) (body : List Node)
  | output (nodes : List Node)
  | template (body : List Node)
  deriving Repr

/-! ## Identifier/scope tracker (`idtracking.py`) -/

def VAR_LOAD_PARAMETER : String := "param"

def VAR_LOAD_RESOLVE : String := "resolve"

def VAR_LOAD_ALIAS : String := "alias"

def VAR_LOAD_UNDEFINED : String := "undefined"

/-- The per-frame symbol table (`Symbols.__init__`).  The `parent` link is
omitted: `FrameSymbolVisitor` reads and writes only `loads` and `stores`
of the table it was created with, never the parent chain. -/
structure Symbols where
  level : Nat
  refs : List (String × String)
  loads : List (String × String)
  stores : List String
  deriving Repr, DecidableEq

def emptySymbols : Symbols := { level := 0, refs := [], loads := [], stores := [] }

/-- Dictionary update `d[k] = v`: overwrite the entry if the key is
present, append it otherwise. -/
def dictSet (d : List (String × String)) (k v : String) : List (String × String) :=
  if d.any (fun p => p.fst == k) then
    d.map (fun p => if p.fst == k then (k, v) else p)
  else d ++ [(k, v)]

/-- Set insertion `s.add(k)` on a duplicate-free list. -/
def setAdd (s : List String) (k : String) : List String :=
  if k ∈ s then s else s ++ [k]

/-- Embedding of `FrameSymbolVisitor.visit_Name`.  All assignments to
names go through this function. -/
def FrameSymbolVisitor.visitName (sym : Symbols) (storeAsParam : Bool)
    (nm ctx : String) : Symbols :=
  if ctx = "store" then
    let sym :=
      if storeAsParam then { sym with loads := dictSet sym.loads nm VAR_LOAD_PARAMETER }
      else sym
    { sym with stores := setAdd sym.stores nm }
  else if ctx = "param" then
    { sym with loads := dictSet sym.loads nm VAR_LOAD_PARAMETER }
  else sym

/-- Embedding of `FrameSymbolVisitor.visit` (dispatch by node tag, as in
`NodeVisitor.visit`).  The handlers are `visit_Name`, `visit_Assign`,
`visit_For`, `visit_AssignBlock`, `visit_Scope`, `visit_Block` and
`visit_OverlayScope`; every other node tag falls through to
`NodeVisitor.generic_visit`, which in this code base returns the node
without descending into children, so the symbol table is unchanged.
The `storeAsParam` flag threads the `store_as_param` keyword argument. -/
def FrameSymbolVisitor.visit (storeAsParam : Bool) : Node → Symbols → Symbols
  | .name nm ctx, sym => FrameSymbolVisitor.visitName sym storeAsParam nm ctx
  | .assign target node, sym =>
      FrameSymbolVisitor.visit storeAsParam target
        (FrameSymbolVisitor.visit storeAsParam node sym)
  | .forStmt target iter _ _ _, sym =>
      FrameSymbolVisitor.visit true target
        (FrameSymbolVisitor.visit storeAsParam iter sym)
  | .assignBlock target _ _, sym => FrameSymbolVisitor.visit storeAsParam target sym
  | .scope _, sym => sym
  | .block _ _ _ _, sym => sym
  | .overlayScope _ _, sym => sym
  | _, sym => sym

/-! ## Optimizer (`optimizer.py`)

`optimize(node, environment)` builds an `Optimizer` and visits the node.
The visitor methods (`visit_Const`, `visit_List`, `visit_Dict`,
`visit_Getitem`, `visit_Getattr`, `visit_Call`, `visit_Filter`,
`visit_Test`, `visit_CondExpr`) rebuild the node from the visited
children; every other node tag goes to `generic_visit`, which in this
code base returns the node unchanged (`NodeVisitor.generic_visit`).  The
environment is stored but never consulted, so the embedding drops it. -/

mutual

def Optimizer.visit : Node → Node
  | .const v => .const v
  | .list items => .list (Optimizer.visitItems items)
  | .dict items => .dict (Optimizer.visitPairs items)
  | .getitem node arg ctx => .getitem (Optimizer.visit node) (Optimizer.visit arg) ctx
  | .getattr node attr ctx => .getattr (Optimizer.visit node) attr ctx
  | .call node args kwargs =>
      .call (Optimizer.visit node) (Optimizer.visitItems args) (Optimizer.visitKwargs kwargs)
  | .filter node nm args kwargs =>
      .filter (Optimizer.visit node) nm (Optimizer.visitItems args) (Optimizer.visitKwargs kwargs)
  | .test node nm args kwargs =>
      .test (Optimizer.visit node) nm (Optimizer.visitItems args) (Optimizer.visitKwargs kwargs)
  | .condExpr tst expr1 expr2 =>
      .condExpr (Optimizer.visit tst) (Optimizer.visit expr1) (Optimizer.visit expr2)
  | n => n

def Optimizer.visitItems : List Node → List Node
  | [] => []
  | n :: ns => Optimizer.visit n :: Optimizer.visitItems ns

def Optimizer.visitPairs : List (Node × Node) → List (Node × Node)
  | [] => []
  | (k, v) :: ps => (Optimizer.visit k, Optimizer.visit v) :: Optimizer.visitPairs ps

def Optimizer.visitKwargs : List (String × Node) → List (String × Node)
  | [] => []
  | (k, v) :: ps => (k, Optimizer.visit v) :: Optimizer.visitKwargs ps

end

/-- Embedding of `optimize(node, environment)`. -/
def optimize (node : Node) : Node := Optimizer.visit node

/-- Discriminator for constant nodes, used to state that a sub-expression
was (not) folded to a constant. -/
def Node.isConst : Node → Bool
  | .const _ => true
  | _ => false

/-! ## Macro argument binding (`runtime.py`, class `Macro`)

`Macro.__call__` first strips a leading `EvalContext` argument (used only
to pick the autoescape flag) and then assembles the `arguments` list that
is handed to the bound render function: positional values, values popped
from the keyword dictionary for the remaining declared parameter names
(`missing` when absent), the synthesized `caller` argument, the collected
catch-all kwargs dictionary and the collected varargs tuple.  The
embedding models the call from that point on: `args`/`kwargs` are the
macro-level arguments, the autoescape flag is irrelevant to binding, and
the final `self._invoke(arguments, autoescape)` (absent from this code
base) is represented by returning the assembled `arguments` list.  The
only exceptions this code can raise are the two `TypeError`s, so the
error side of `Except` is exactly a raised `TypeError` message. -/

inductive Value where
  | int (n : Int)
  | str (s : String)
  deriving Repr, DecidableEq

/-- One entry of the heterogeneous `arguments` list built by
`Macro.__call__`: a bound value, the `missing` sentinel, the
`environment.undefined("No caller defined", name="caller")` fallback, the
collected kwargs dictionary, or the collected varargs tuple. -/
inductive Arg where
  | val (v : Value)
  | missingArg
  | callerUndefined (hint nm : String)
  | collectedKwargs (kw : List (String × Value))
  | collectedVarargs (vs : List Value)
  deriving Repr, DecidableEq

/-- The fields of `Macro` that `__call__` consults (`__init__` stores
them verbatim from its parameters). -/
structure MacroVal where
  name : String
  arguments : List String
  catchKwargs : Bool
  catchVarargs : Bool
  caller : Bool
  deriving Repr, DecidableEq

/-- The stored `_argument_count = len(arguments)`. -/
def MacroVal.argumentCount (m : MacroVal) : Nat := m.arguments.length

/-- The stored `explicit_caller = 'caller' in arguments`. -/
def MacroVal.explicitCaller (m : MacroVal) : Bool := m.arguments.contains "caller"

/-- Dictionary `kwargs.pop(k)`: the popped value (if any) and the
dictionary without that entry (first occurrence). -/
def kwPop (kw : List (String × Value)) (k : String) : Option Value × List (String × Value) :=
  match kw with
  | [] => (none, [])
  | (k2, v) :: rest =>
      if k2 = k then (some v, rest)
      else
        let r := kwPop rest k
        (r.1, (k2, v) :: r.2)

/-- Dictionary lookup by key (first occurrence). -/
def lookupKw (kw : List (String × Value)) (k : String) : Option Value :=
  match kw with
  | [] => none
  | (k2, v) :: rest => if k2 = k then some v else lookupKw rest k

/-- The `for name in self.arguments[len(arguments):]` loop of
`Macro.__call__`: bind each remaining declared parameter name from the
keyword dictionary (`missing` when absent), remember whether the name
`caller` was among them, and return the shrunken dictionary. -/
def bindNamed : List String → List (String × Value) → List Arg × List (String × Value) × Bool
  | [], kw => ([], kw, false)
  | nm :: rest, kw =>
      let p := kwPop kw nm
      let r := bindNamed rest p.2
      let arg := match p.1 with
        | some v => Arg.val v
        | none => Arg.missingArg
      (arg :: r.1, r.2.1, r.2.2 || (nm == "caller"))

/-- Lines 429-442 of `Macro.__call__`: positional binding followed by the
named-parameter loop (or, when every parameter was bound positionally,
`found_caller = self.explicit_caller`). -/
def MacroVal.stage1 (m : MacroVal) (args : List Value) (kwargs : List (String × Value)) :
    List Arg × List (String × Value) × Bool :=
  let arguments := (args.take m.argumentCount).map Arg.val
  if arguments.length ≠ m.argumentCount then
    let r := bindNamed (m.arguments.drop arguments.length) kwargs
    (arguments ++ r.1, r.2.1, r.2.2)
  else (arguments, kwargs, m.explicitCaller)

/-- Lines 443-448 of `Macro.__call__`: synthesize the `caller` argument
when the macro accepts a caller block and no parameter bound it. -/
def MacroVal.stage2 (m : MacroVal) (st : List Arg × List (String × Value) × Bool) :
    List Arg × List (String × Value) :=
  if m.caller && !st.2.2 then
    let p := kwPop st.2.1 "caller"
    match p.1 with
    | some v => (st.1 ++ [Arg.val v], p.2)
    | none => (st.1 ++ [Arg.callerUndefined "No caller defined" "caller"], p.2)
  else (st.1, st.2.1)

/-- Lines 459-465 of `Macro.__call__`: collect varargs or raise the
excess-positional `TypeError`, then invoke. -/
def MacroVal.finish (m : MacroVal) (args : List Value) (arguments : List Arg) :
    Except String (List Arg) :=
  if m.catchVarargs then .ok (arguments ++ [Arg.collectedVarargs (args.drop m.argumentCount)])
  else if m.argumentCount < args.length then
    .error ("macro " ++ m.name ++ " takes not more than " ++ toString m.arguments.length
      ++ " argument(s)")
  else .ok arguments

/-- Embedding of `Macro.__call__` after the `EvalContext` strip: stage1
(positional and named binding), stage2 (caller synthesis), the catch-all
kwargs collection or unknown-keyword `TypeError` (lines 449-458), and
`finish`. -/
def MacroVal.call (m : MacroVal) (args : List Value) (kwargs : List (String × Value)) :
    Except String (List Arg) :=
  let st := m.stage2 (m.stage1 args kwargs)
  if m.catchKwargs then m.finish args (st.1 ++ [Arg.collectedKwargs st.2])
  else if st.2 ≠ [] then
    if st.2.any (fun p => p.fst == "caller") then
      .error ("macro " ++ m.name
        ++ " was invoked with two values for the special caller argument. This is most likely a bug.")
    else
      .error ("macro " ++ m.name ++ " takes no keyword argument "
        ++ (match st.2 with
            | (k, _) :: _ => k
            | [] => ""))
  else m.finish args st.1

/-- The argument a declared parameter name receives from the keyword
dictionary: the looked-up value, or the `missing` sentinel. -/
def kwArgOf (kw : List (String × Value)) (nm : String) : Arg :=
  match lookupKw kw nm with
  | some v => Arg.val v
  | none => Arg.missingArg

/-- Whether a macro call raised: the only exceptions `Macro.__call__`
raises are its two `TypeError`s, so an `error` outcome is exactly a
raised `TypeError`. -/
def raisesTypeError : Except String (List Arg) → Bool
  | .error _ => true
  | .ok _ => false

/-! ## Undefined values and context resolution (`runtime.py`)

`Undefined.__init__` stores `(hint, obj, name, exc)`; the runtime class
of the instance (`Undefined`, `ChainableUndefined`, `DebugUndefined`, a
user subclass, ...) is modelled as an explicit `cls` tag, since
`__eq__` and `__hash__` dispatch on `type(self)`.  The `missing`
default of `obj` is modelled as `none`, a present source object as
`some` of its representation. -/

structure UndefinedVal where
  cls : String
  undefinedHint : Option String
  undefinedObj : Option String
  undefinedName : Option String
  undefinedException : String
  deriving Repr, DecidableEq

/-- Embedding of `Undefined.__eq__`: `type(self) is type(other)`. -/
def Undefined.eq (u v : UndefinedVal) : Bool := u.cls == v.cls

/-- Embedding of `Undefined.__ne__`: `not self.__eq__(other)`. -/
def Undefined.ne (u v : UndefinedVal) : Bool := !(Undefined.eq u v)

/-- Embedding of `Undefined.__hash__`: `id(type(self))`.  The identity
of the class object is modelled by the class tag itself (`id(type(-))`
is injective on classes and depends on nothing else). -/
def Undefined.hashId (u : UndefinedVal) : String := u.cls

/-- Modelled from the spec: the body of `Undefined._undefined_message`
is a stub (`pass`) in this code base.  The spec says the message is
built from whichever of hint, (object, name) pair, or name alone is
available, most specific first. -/
def Undefined.undefinedMessage (u : UndefinedVal) : String :=
  match u.undefinedHint with
  | some h => h
  | none =>
      match u.undefinedObj with
      | some o =>
          match u.undefinedName with
          | some n => o ++ " has no attribute " ++ n
          | none => o ++ " has no attribute"
      | none =>
          match u.undefinedName with
          | some n => n ++ " is undefined"
          | none => "value is undefined"

/-- Runtime values as far as context resolution is concerned: strings,
integers, or an Undefined sentinel object. -/
inductive PyVal where
  | str (s : String)
  | int (n : Int)
  | undef (u : UndefinedVal)
  deriving Repr, DecidableEq

/-- The exception an operation on an Undefined raises. -/
inductive RtError where
  | undefinedError (msg : String)
  deriving Repr, DecidableEq

/-- Modelled from the spec: the body of
`Undefined._fail_with_undefined_error` is a stub (`pass`) in this code
base.  The spec says every such operation raises an `UndefinedError`
immediately, built from the undefined message. -/
def Undefined.failWithUndefinedError (u : UndefinedVal) : Except RtError PyVal :=
  .error (.undefinedError (Undefined.undefinedMessage u))

/-- The special methods of class `Undefined` that are assigned
`_fail_with_undefined_error` (runtime.py lines 517-526): arithmetic in
both orientations, unary sign, call, subscript, comparisons, and the
numeric conversions. -/
inductive UndefOp where
  | add | radd | sub | rsub | mul | rmul | div | rdiv | truediv | rtruediv
  | floordiv | rfloordiv | mod | rmod | pos | neg | callOp | getitemOp
  | lt | le | gt | ge | intOp | floatOp | complexOp | pow | rpow
  deriving Repr, DecidableEq

/-- Dispatch of any of those operations on a default Undefined value:
every entry of the operator table is the single method
`_fail_with_undefined_error`. -/
def Undefined.applyOp (u : UndefinedVal) (_ : UndefOp) : Except RtError PyVal :=
  Undefined.failWithUndefinedError u

/-- Generic association-list lookup (Python dictionary `get`). -/
def assocLookup {α : Type} (l : List (String × α)) (k : String) : Option α :=
  match l with
  | [] => none
  | (k2, v) :: rest => if k2 = k then some v else assocLookup rest k

/-- The two layers of `Context` that `resolve_or_missing` consults. -/
structure RtContext where
  vars : List (String × PyVal)
  parent : List (String × PyVal)
  deriving Repr, DecidableEq

/-- Modelled from the spec: `Context.resolve_or_missing` is a stub
(`pass`) in this code base.  The spec says: check `vars`, then
`parent`, else the missing sentinel (modelled as `none`). -/
def RtContext.resolveOrMissing (ctx : RtContext) (key : String) : Option PyVal :=
  match assocLookup ctx.vars key with
  | some v => some v
  | none => assocLookup ctx.parent key

/-- Modelled from the spec: `Context.resolve` is a stub (`pass`) in
this code base.  The spec says it wraps the missing sentinel into an
Undefined instance carrying the name; it performs no operation on the
value and raises nothing (its result is a plain value). -/
def RtContext.resolve (ctx : RtContext) (key : String) : PyVal :=
  match ctx.resolveOrMissing key with
  | some v => v
  | none =>
      PyVal.undef
        { cls := "Undefined", undefinedHint := none, undefinedObj := none,
          undefinedName := some key, undefinedException := "UndefinedError" }

/-! ## Token stream (`lexer.py`, class `TokenStream`)

Tokens compare their `type` against the interned constant `TOKEN_EOF`
with `is`; interned equal strings are the same object, so the embedding
uses string equality.  The pushback deque appends on the right
(`push`) and pops from the left (`popleft`), i.e. the list front. -/

def TOKEN_EOF : String := "eof"

def TOKEN_INITIAL : String := "initial"

structure Token where
  lineno : Nat
  ty : String
  value : String
  deriving Repr, DecidableEq

structure TokenStream where
  current : Token
  pushed : List Token
  iter : List Token
  closed : Bool
  deriving Repr, DecidableEq

/-- Embedding of `TokenStream.push`: append to the pushback deque. -/
def TokenStream.push (s : TokenStream) (t : Token) : TokenStream :=
  { s with pushed := s.pushed ++ [t] }

/-- Embedding of `TokenStream.__next__`: return the old current token
and advance, preferring the pushback deque; on iterator exhaustion call
`close()`, which in this code base only sets the `closed` flag (it does
not replace `current` with an EOF token). -/
def TokenStream.next (s : TokenStream) : Token × TokenStream :=
  let rv := s.current
  match s.pushed with
  | t :: rest => (rv, { s with current := t, pushed := rest })
  | [] =>
      if s.current.ty ≠ TOKEN_EOF then
        match s.iter with
        | t :: rest => (rv, { s with current := t, iter := rest })
        | [] => (rv, { s with closed := true })
      else (rv, s)

/-- Embedding of `TokenStream.look`: `old_token = next(self)`, read the
new current as the result, then `push(old_token)` and return the
result. -/
def TokenStream.look (s : TokenStream) : Token × TokenStream :=
  let r := s.next
  let s1 := r.2
  (s1.current, s1.push r.1)

/-- Iterated `__next__`: the tokens produced by n successive advances
and the stream afterwards. -/
def TokenStream.advanceN : Nat → TokenStream → List Token × TokenStream
  | 0, s => ([], s)
  | Nat.succ n, s =>
      let r := s.next
      let rest := TokenStream.advanceN n r.2
      (r.1 :: rest.1, rest.2)

/-! ## Tokenizer loop (`Lexer.tokeniter`)

The rule table built by `Lexer.__init__` is embedded with its token
specs and transition commands transcribed literally; the regex patterns
belong to the external `re` module and are abstracted into a `Matcher`
oracle (state name, rule index, current line, position ↦ optional match
end and groups).  The shape of the table (which token types each rule
emits, which command it runs) is the same for every environment; only
the regex bodies vary.  This code base yields `rule.tokens` entries
verbatim, so the literal string `#bygroup` and `Failure` objects can
appear as emitted token types; `Failure` is a distinct constructor so
that it can never collide with the string `eof`.  The while loop is
embedded with explicit fuel; running out of fuel is a distinct outcome,
never `ok`. -/

inductive TokTy where
  | str (s : String)
  | failure (msg : String)
  deriving Repr, DecidableEq

structure RawTok where
  lineno : Nat
  ty : TokTy
  value : String
  deriving Repr, DecidableEq

inductive TokSpec where
  | single (t : TokTy)
  | multi (ts : List TokTy)
  deriving Repr, DecidableEq

structure LexRule where
  tokens : TokSpec
  command : Option String
  deriving Repr, DecidableEq

/-- The shared tail of the tag states (`tag_rules` in
`Lexer.__init__`): whitespace, float, integer, name, string, operator,
none with a transition command. -/
def tagRules : List LexRule :=
  [ { tokens := .single (.str "whitespace"), command := none },
    { tokens := .single (.str "float"), command := none },
    { tokens := .single (.str "integer"), command := none },
    { tokens := .single (.str "name"), command := none },
    { tokens := .single (.str "string"), command := none },
    { tokens := .single (.str "operator"), command := none } ]

/-- The rule table `self.rules` of `Lexer.__init__`, keyed by state
name; `none` models the `KeyError` a lookup of an unknown state would
raise. -/
def lexerRules : String → Option (List LexRule)
  | "root" => some
      [ { tokens := .multi [.str "data", .str "#bygroup"], command := some "#bygroup" },
        { tokens := .single (.str "data"), command := none } ]
  | "comment_begin" => some
      [ { tokens := .multi [.str "comment", .str "comment_end"], command := some "#pop" },
        { tokens := .multi [.failure "Missing end of comment tag"], command := none } ]
  | "block_begin" => some
      ({ tokens := .single (.str "block_end"), command := some "#pop" } :: tagRules)
  | "variable_begin" => some
      ({ tokens := .single (.str "variable_end"), command := some "#pop" } :: tagRules)
  | "raw_begin" => some
      [ { tokens := .multi [.str "data", .str "raw_end"], command := some "#pop" },
        { tokens := .multi [.failure "Missing end of raw directive"], command := none } ]
  | "linestatement_begin" => some
      ({ tokens := .single (.str "linestatement_end"), command := some "#pop" } :: tagRules)
  | "linecomment_begin" => some
      [ { tokens := .multi [.str "linecomment", .str "linecomment_end"],
          command := some "#pop" } ]
  | _ => none

/-- Result of a regex match: `m.end()` and the capture groups. -/
structure MatchRes where
  endPos : Nat
  groups : List String
  whole : String
  deriving Repr, DecidableEq

/-- Abstract matcher for the rule patterns (external `re` module). -/
def Matcher : Type := String → Nat → String → Nat → Option MatchRes

/-- The `for rule in self.rules[state]` scan: first rule whose pattern
matches at the current position. -/
def findRule (matcher : Matcher) (state : String) (line : String) (pos : Nat) :
    List LexRule → Nat → Option (LexRule × MatchRes)
  | [], _ => none
  | r :: rs, i =>
      match matcher state i line pos with
      | some m => some (r, m)
      | none => findRule matcher state line pos rs (i + 1)

/-- Token emission for a tuple spec:
`for idx, token in enumerate(rule.tokens): yield lineno, token,
m.group(idx + 1)`. -/
def emitMulti (lineno : Nat) (groups : List String) : List TokTy → Nat → List RawTok
  | [], _ => []
  | t :: ts, idx =>
      { lineno := lineno, ty := t, value := groups.getD idx "" }
        :: emitMulti lineno groups ts (idx + 1)

/-- Token emission for one matched rule (lines 444-448 of
`tokeniter`). -/
def emitTokens (lineno : Nat) (spec : TokSpec) (m : MatchRes) : List RawTok :=
  match spec with
  | .single t => [{ lineno := lineno, ty := t, value := m.whole }]
  | .multi ts => emitMulti lineno m.groups ts 0

/-- The transition-command block of `tokeniter` (lines 450-460).  The
Python state stack keeps its top at the end of the list; the embedding
keeps the top at the head, so `pop` is `tail` and `append` is `cons`. -/
def applyCommand (cmd : String) (state : String) (stack : List String) : List String :=
  if cmd = "#pop" then
    let st2 := stack.tail
    if st2.isEmpty then ["root"] else st2
  else if cmd = "#push" then state :: stack
  else cmd :: stack

structure LexState where
  state : String
  stack : List String
  lineno : Nat
  pos : Nat
  line : String
  acc : List RawTok
  deriving Repr, DecidableEq

inductive LexOutcome where
  | ok (toks : List RawTok)
  | syntaxError (lineno : Nat)
  | keyError (state : String)
  | outOfFuel
  deriving Repr, DecidableEq

/-- The `while 1` loop of `tokeniter` with the post-loop epilogue: try
the rules of the current state in order; on a match emit the tokens,
advance the position and run the transition command; otherwise move to
the next physical line, and when the lines are exhausted leave the loop,
raising `Unexpected end of template` when a nested state is still open
and otherwise emitting the final `eof` token. -/
def tokeniterLoop (matcher : Matcher) (lines : List String) :
    Nat → LexState → LexOutcome
  | 0, _ => .outOfFuel
  | Nat.succ fuel, st =>
      match lexerRules st.state with
      | none => .keyError st.state
      | some rules =>
          match findRule matcher st.state st.line st.pos rules 0 with
          | some (r, m) =>
              match r.command with
              | some cmd =>
                  tokeniterLoop matcher lines fuel
                    { st with
                      acc := st.acc ++ emitTokens st.lineno r.tokens m
                      pos := m.endPos
                      stack := applyCommand cmd st.state st.stack
                      state := (applyCommand cmd st.state st.stack).headD "root" }
              | none =>
                  tokeniterLoop matcher lines fuel
                    { st with
                      acc := st.acc ++ emitTokens st.lineno r.tokens m
                      pos := m.endPos }
          | none =>
              if lines.length < st.lineno + 1 then
                if st.state ≠ "root" then .syntaxError (st.lineno + 1)
                else .ok (st.acc
                  ++ [{ lineno := st.lineno + 1, ty := .str "eof", value := "" }])
              else
                tokeniterLoop matcher lines fuel
                  { st with
                    pos := 0
                    lineno := st.lineno + 1
                    line := lines.getD (st.lineno + 1 - 1) "" }

/-- Embedding of `Lexer.tokeniter` after newline normalization and
`splitlines` (string processing external to the loop): initial state
`root` unless overridden, singleton state stack, empty first line. -/
def tokeniter (matcher : Matcher) (lines : List String) (initialState : Option String)
    (fuel : Nat) : LexOutcome :=
  let state := initialState.getD "root"
  tokeniterLoop matcher lines fuel
    { state := state, stack := [state], lineno := 1, pos := 0, line := "", acc := [] }

/-- A token spec that never emits the `eof` token type. -/
def specNoEof : TokSpec → Bool
  | .single t => t ≠ TokTy.str "eof"
  | .multi ts => ts.all (fun t => t ≠ TokTy.str "eof")

/-! ## LRU cache (`utils.py`, class `LRUCache`)

`_postinit` (which aliases `self._queue.popleft`, `self._queue.remove`,
`self._queue.append` and creates the lock) is absent from this code
base; the aliases used by `__getitem__`/`__setitem__` are embedded as
the standard `collections.deque` operations they name (the deque is an
external library type), and the lock is irrelevant in a sequential
embedding.  The queue keeps the least recently used key at the front
(the `popleft` end) and the most recently used at the back (the
`append` end). -/

structure LRUCacheV (V : Type) where
  capacity : Nat
  mapping : List (String × V)
  queue : List String
  deriving Repr, DecidableEq

/-- Generic dictionary update `d[k] = v`. -/
def assocSet {V : Type} (d : List (String × V)) (k : String) (v : V) :
    List (String × V) :=
  if d.any (fun p => p.fst == k) then
    d.map (fun p => if p.fst = k then (k, v) else p)
  else d ++ [(k, v)]

/-- Dictionary deletion `del d[k]` (keys are unique in a dictionary, so
filtering the key out is the removal of its entry). -/
def assocRemove {V : Type} (d : List (String × V)) (k : String) : List (String × V) :=
  d.filter (fun p => p.fst ≠ k)

/-- `deque.remove(k)`: remove the first occurrence, `none` when the key
is absent (the `ValueError` case). -/
def dequeRemove (q : List String) (k : String) : Option (List String) :=
  match q with
  | [] => none
  | x :: rest =>
      if x = k then some rest
      else
        match dequeRemove rest k with
        | some r => some (x :: r)
        | none => none

/-- `deque.remove(k)` wrapped in `except ValueError: pass`, as in
`__getitem__` and `__delitem__`. -/
def dequeRemoveOrKeep (q : List String) (k : String) : List String :=
  match dequeRemove q k with
  | some r => r
  | none => q

/-- Embedding of `LRUCache.__getitem__`: look the key up (`KeyError`
when absent); unless the key is already at the back of the queue
(`self._queue[-1]`, `IndexError` on an empty deque), remove it from the
queue (ignoring absence) and append it at the back. -/
def LRUCacheV.getitem {V : Type} (c : LRUCacheV V) (k : String) :
    Except String (V × LRUCacheV V) :=
  match assocLookup c.mapping k with
  | none => .error "KeyError"
  | some rv =>
      match c.queue.getLast? with
      | none => .error "IndexError"
      | some last =>
          if last ≠ k then
            .ok (rv, { c with queue := dequeRemoveOrKeep c.queue k ++ [k] })
          else .ok (rv, c)

/-- Embedding of `LRUCache.__setitem__`: an existing key is removed from
the queue (the unprotected `self._remove`, `ValueError` when absent);
otherwise, at capacity, the key popped from the front of the queue is
deleted from the mapping (`IndexError` on an empty deque, `KeyError` if
that key is not stored); then the key is appended at the back and the
value stored. -/
def LRUCacheV.setitem {V : Type} (c : LRUCacheV V) (k : String) (v : V) :
    Except String (LRUCacheV V) :=
  if (assocLookup c.mapping k).isSome then
    match dequeRemove c.queue k with
    | none => .error "ValueError"
    | some q => .ok { c with queue := q ++ [k], mapping := assocSet c.mapping k v }
  else if c.mapping.length = c.capacity then
    match c.queue with
    | [] => .error "IndexError"
    | old :: rest =>
        if (assocLookup c.mapping old).isSome then
          .ok { c with
                mapping := assocSet (assocRemove c.mapping old) k v
                queue := rest ++ [k] }
        else .error "KeyError"
  else .ok { c with mapping := assocSet c.mapping k v, queue := c.queue ++ [k] }

/-- Well-formedness of a cache state: queue and mapping keys are
duplicate-free and hold the same keys (maintained by the class; the
claims quantify over such states). -/
def LRUCacheV.wf {V : Type} (c : LRUCacheV V) : Prop :=
  c.queue.Nodup ∧ (c.mapping.map Prod.fst).Nodup
    ∧ (∀ k2 ∈ c.queue, k2 ∈ c.mapping.map Prod.fst)
    ∧ (∀ k2 ∈ c.mapping.map Prod.fst, k2 ∈ c.queue)

mutual

theorem Optimizer.visit_id : ∀ n : Node, Optimizer.visit n = n
  | .name _ _ => by simp [Optimizer.visit]
  | .const _ => by simp [Optimizer.visit]
  | .list items => by simp [Optimizer.visit, Optimizer.visitItems_id items]
  | .tuple _ _ => by simp [Optimizer.visit]
  | .dict items => by simp [Optimizer.visit, Optimizer.visitPairs_id items]
  | .getitem node arg _ => by
      simp [Optimizer.visit, Optimizer.visit_id node, Optimizer.visit_id arg]
  | .getattr node _ _ => by simp [Optimizer.visit, Optimizer.visit_id node]
  | .call node args kwargs => by
      simp [Optimizer.visit, Optimizer.visit_id node, Optimizer.visitItems_id args,
        Optimizer.visitKwargs_id kwargs]
  | .filter node _ args kwargs => by
      simp [Optimizer.visit, Optimizer.visit_id node, Optimizer.visitItems_id args,
        Optimizer.visitKwargs_id kwargs]
  | .test node _ args kwargs => by
      simp [Optimizer.visit, Optimizer.visit_id node, Optimizer.visitItems_id args,
        Optimizer.visitKwargs_id kwargs]
  | .condExpr t e1 e2 => by
      simp [Optimizer.visit, Optimizer.visit_id t, Optimizer.visit_id e1, Optimizer.visit_id e2]
  | .add _ _ => by simp [Optimizer.visit]
  | .assign _ _ => by simp [Optimizer.visit]
  | .assignBlock _ _ _ => by simp [Optimizer.visit]
  | .forStmt _ _ _ _ _ => by simp [Optimizer.visit]
  | .ifStmt _ _ _ _ => by simp [Optimizer.visit]
  | .block _ _ _ _ => by simp [Optimizer.visit]
  | .scope _ => by simp [Optimizer.visit]
  | .overlayScope _ _ => by simp [Optimizer.visit]
  | .output _ => by simp [Optimizer.visit]
  | .template _ => by simp [Optimizer.visit]

theorem Optimizer.visitItems_id : ∀ ns : List Node, Optimizer.visitItems ns = ns
  | [] => by simp [Optimizer.visitItems]
  | n :: ns => by
      simp [Optimizer.visitItems, Optimizer.visit_id n, Optimizer.visitItems_id ns]

theorem Optimizer.visitPairs_id : ∀ ps : List (Node × Node), Optimizer.visitPairs ps = ps
  | [] => by simp [Optimizer.visitPairs]
  | (k, v) :: ps => by
      simp [Optimizer.visitPairs, Optimizer.visit_id k, Optimizer.visit_id v,
        Optimizer.visitPairs_id ps]

theorem Optimizer.visitKwargs_id : ∀ ps : List (String × Node), Optimizer.visitKwargs ps = ps
  | [] => by simp [Optimizer.visitKwargs]
  | (k, v) :: ps => by
      simp [Optimizer.visitKwargs, Optimizer.visit_id v, Optimizer.visitKwargs_id ps]

end

/-- C1: the claim says the for-loop target must not appear in the
enclosing frame store set after `visit_For`.  Evaluating the embedded
`FrameSymbolVisitor` at the failing input refutes this: visiting
`{% for x in items %}` (a `For` node whose target is `Name("x", store)`)
from an empty symbol table puts `"x"` into `stores`, because `visit_For`
visits the target with `store_as_param=True` and `visit_Name` then adds
the name to `stores`.  The block half of the claim does hold: a
`{% set x = 1 %}` nested in `{% block b %}` leaves `stores` empty, since
`visit_Block` does not descend. -/
theorem C1_for_target_leaks_into_stores :
    ("x" ∈ (FrameSymbolVisitor.visit false
        (Node.forStmt (Node.name "x" "store") (Node.name "items" "load") [] [] false)
        emptySymbols).stores)
    ∧ ("x" ∉ (FrameSymbolVisitor.visit false
        (Node.block "b" [Node.assign (Node.name "x" "store") (Node.const 1)] false false)
        emptySymbols).stores) := by
  constructor
  · simp [FrameSymbolVisitor.visit, FrameSymbolVisitor.visitName, setAdd, emptySymbols]
  · simp [FrameSymbolVisitor.visit, emptySymbols]

/-- C2: the claim says a list literal whose elements are all constant is
folded to a constant node by `optimize`.  Evaluating the embedded
optimizer at the failing input refutes this: `optimize` on
`List([Const 1, Const 2])` returns the `List` node itself (the visitor
methods only rebuild nodes, no folding is performed anywhere in
`optimizer.py`), so the result is not a constant node. -/
theorem C2_constant_list_not_folded :
    optimize (Node.list [Node.const 1, Node.const 2])
        = Node.list [Node.const 1, Node.const 2]
    ∧ Node.isConst (optimize (Node.list [Node.const 1, Node.const 2])) = false := by
  constructor
  · simp [optimize, Optimizer.visit, Optimizer.visitItems]
  · simp [optimize, Optimizer.visit, Optimizer.visitItems, Node.isConst]

/-- C9: the optimizer is idempotent: applying `optimize` twice yields a
tree identical to applying it once.  (In this code base the transform is
in fact the identity on every node, so idempotence is immediate.) -/
theorem C9_optimize_idempotent (n : Node) : optimize (optimize n) = optimize n := by
  rw [optimize, optimize, Optimizer.visit_id (Optimizer.visit n)]


theorem kwPop_fst (kw : List (String × Value)) (nm : String) :
    (kwPop kw nm).1 = lookupKw kw nm := by
  induction kw with
  | nil => rfl
  | cons p rest ih =>
      obtain ⟨k2, v⟩ := p
      by_cases h : k2 = nm <;> simp [kwPop, lookupKw, h, ih]

theorem kwPop_lookup_ne (kw : List (String × Value)) (nm k : String) (h : k ≠ nm) :
    lookupKw (kwPop kw nm).2 k = lookupKw kw k := by
  induction kw with
  | nil => rfl
  | cons p rest ih =>
      obtain ⟨k2, v⟩ := p
      by_cases h2 : k2 = nm
      · subst h2
        simp [kwPop, lookupKw, Ne.symm h]
      · by_cases h3 : k2 = k <;> simp [kwPop, lookupKw, h, h2, h3, ih]

theorem kwPop_keys_ne_mem (kw : List (String × Value)) (nm k : String) (h : k ≠ nm)
    (hk : k ∈ kw.map Prod.fst) : k ∈ (kwPop kw nm).2.map Prod.fst := by
  induction kw with
  | nil => simp at hk
  | cons p rest ih =>
      obtain ⟨k2, v⟩ := p
      by_cases h2 : k2 = nm
      · subst h2
        simp only [List.map_cons, List.mem_cons] at hk
        rcases hk with hk | hk
        · exact absurd hk h
        · simp only [kwPop, if_pos rfl]
          exact hk
      · simp only [List.map_cons, List.mem_cons] at hk
        rcases hk with hk | hk
        · simp [kwPop, h2, hk]
        · simp [kwPop, h2, ih hk]

theorem bindNamed_length (nms : List String) (kw : List (String × Value)) :
    (bindNamed nms kw).1.length = nms.length := by
  induction nms generalizing kw with
  | nil => rfl
  | cons nm rest ih => simp [bindNamed, ih]

theorem bindNamed_keys (nms : List String) (kw : List (String × Value)) (k : String)
    (hn : k ∉ nms) (hk : k ∈ kw.map Prod.fst) :
    k ∈ (bindNamed nms kw).2.1.map Prod.fst := by
  induction nms generalizing kw with
  | nil => simpa [bindNamed] using hk
  | cons nm rest ih =>
      simp only [List.mem_cons, not_or] at hn
      simp only [bindNamed]
      exact ih ((kwPop kw nm).2) hn.2 (kwPop_keys_ne_mem kw nm k hn.1 hk)

theorem bindNamed_get (nms : List String) (kw : List (String × Value)) (hd : nms.Nodup) :
    ∀ i (h : i < nms.length),
      (bindNamed nms kw).1.get? i = some (kwArgOf kw (nms.get ⟨i, h⟩)) := by
  induction nms generalizing kw with
  | nil => intro i h; simp at h
  | cons nm rest ih =>
      intro i h
      match i with
      | 0 => simp [bindNamed, kwArgOf, kwPop_fst]
      | Nat.succ j =>
          simp only [List.nodup_cons] at hd
          have hj : j < rest.length := Nat.lt_of_succ_lt_succ h
          have := ih (kwPop kw nm).2 hd.2 j hj
          have hne : rest.get ⟨j, hj⟩ ≠ nm := by
            intro hc
            exact hd.1 (hc ▸ rest.get_mem j hj)
          simp only [bindNamed, List.get?_cons_succ, this, kwArgOf,
            kwPop_lookup_ne kw nm _ hne, List.get_cons_succ]

theorem stage1_length (m : MacroVal) (args : List Value) (kwargs : List (String × Value)) :
    (m.stage1 args kwargs).1.length = m.argumentCount := by
  rw [MacroVal.stage1]
  split
  · rename_i hne
    simp only [List.length_append, bindNamed_length, List.length_map, List.length_take] at *
    simp only [List.length_drop, MacroVal.argumentCount] at *
    omega
  · rename_i heq
    simpa using not_not.mp (fun hc => hc heq)

theorem stage1_prefix (m : MacroVal) (args : List Value) (kwargs : List (String × Value)) :
    ∃ t, (m.stage1 args kwargs).1 = (args.take m.argumentCount).map Arg.val ++ t := by
  rw [MacroVal.stage1]
  split
  · exact ⟨_, rfl⟩
  · exact ⟨[], (List.append_nil _).symm⟩

theorem stage2_prefix (m : MacroVal) (st : List Arg × List (String × Value) × Bool) :
    ∃ t, (m.stage2 st).1 = st.1 ++ t := by
  rw [MacroVal.stage2]
  split
  · cases hp : (kwPop st.2.1 "caller").1 with
    | none => exact ⟨[Arg.callerUndefined "No caller defined" "caller"], by simp [hp]⟩
    | some v => exact ⟨[Arg.val v], by simp [hp]⟩
  · exact ⟨[], (List.append_nil _).symm⟩

theorem finish_ok_prefix (m : MacroVal) (args : List Value) (arguments l : List Arg)
    (h : m.finish args arguments = .ok l) : ∃ t, l = arguments ++ t := by
  rw [MacroVal.finish] at h
  split at h
  · exact ⟨_, (Except.ok.injEq _ _).mp h |>.symm⟩
  · split at h
    · exact absurd h (by simp)
    · exact ⟨[], by simpa [List.append_nil] using ((Except.ok.injEq _ _).mp h).symm⟩

theorem call_ok_stage2_prefix (m : MacroVal) (args : List Value)
    (kwargs : List (String × Value)) (l : List Arg) (h : m.call args kwargs = .ok l) :
    ∃ t, l = (m.stage2 (m.stage1 args kwargs)).1 ++ t := by
  rw [MacroVal.call] at h
  split at h
  · obtain ⟨t, ht⟩ := finish_ok_prefix m args _ l h
    exact ⟨[Arg.collectedKwargs (m.stage2 (m.stage1 args kwargs)).2] ++ t, by
      simpa [List.append_assoc] using ht⟩
  · split at h
    · split at h <;> exact absurd h (by simp)
    · exact finish_ok_prefix m args _ l h

theorem stage1_keys (m : MacroVal) (args : List Value) (kwargs : List (String × Value))
    (k : String) (hk : k ∈ kwargs.map Prod.fst)
    (hn : k ∉ m.arguments.drop (min m.argumentCount args.length)) :
    k ∈ (m.stage1 args kwargs).2.1.map Prod.fst := by
  have hlen : ((args.take m.argumentCount).map Arg.val).length
      = min m.argumentCount args.length := by
    simp [List.length_take]
  rw [MacroVal.stage1]
  split
  · exact bindNamed_keys _ _ _ (by rw [hlen]; exact hn) hk
  · exact hk

theorem stage2_keys (m : MacroVal) (st : List Arg × List (String × Value) × Bool)
    (k : String) (hk : k ∈ st.2.1.map Prod.fst) (hnc : ¬(k = "caller" ∧ m.caller = true)) :
    k ∈ (m.stage2 st).2.map Prod.fst := by
  rw [MacroVal.stage2]
  split
  · rename_i h
    have hmc : m.caller = true := by
      cases hc : m.caller
      · rw [hc] at h; simp at h
      · rfl
    have hkc : k ≠ "caller" := fun hc => hnc ⟨hc, hmc⟩
    cases hp : (kwPop st.2.1 "caller").1 with
    | none => simpa [hp] using kwPop_keys_ne_mem st.2.1 "caller" k hkc hk
    | some v => simpa [hp] using kwPop_keys_ne_mem st.2.1 "caller" k hkc hk
  · exact hk

theorem finish_error (m : MacroVal) (args : List Value) (x : List Arg)
    (hcv : m.catchVarargs = false) (hlen : m.argumentCount < args.length) :
    raisesTypeError (m.finish args x) = true := by
  rw [MacroVal.finish]
  simp [hcv, hlen, raisesTypeError, Nat.not_le_of_lt hlen]

theorem call_error_of_kwargs_left (m : MacroVal) (args : List Value)
    (kwargs : List (String × Value)) (hck : m.catchKwargs = false)
    (hne : (m.stage2 (m.stage1 args kwargs)).2 ≠ []) :
    raisesTypeError (m.call args kwargs) = true := by
  rw [MacroVal.call]
  simp only [hck, Bool.false_eq_true, if_false]
  rw [if_pos hne]
  split <;> rfl

theorem call_error_of_excess_positional (m : MacroVal) (args : List Value)
    (kwargs : List (String × Value)) (hcv : m.catchVarargs = false)
    (hlen : m.argumentCount < args.length) :
    raisesTypeError (m.call args kwargs) = true := by
  rw [MacroVal.call]
  split
  · exact finish_error m args _ hcv hlen
  · split
    · split <;> rfl
    · exact finish_error m args _ hcv hlen

/-- C3 counterexample: the claim says that when a macro does not accept
catch-all kwargs, any keyword argument whose name is not an unbound
parameter raises a `TypeError` at call time.  This fails for the
synthesized `caller` pseudo-parameter: a macro with parameters `(a)`,
no catch-all kwargs and `caller=True`, called with one positional
argument and the keyword `caller` (which is not a declared parameter),
binds the keyword as the caller argument and returns normally. -/
theorem C3_counterexample :
    MacroVal.call
      { name := "m", arguments := ["a"], catchKwargs := false, catchVarargs := false,
        caller := true }
      [Value.int 1] [("caller", Value.int 2)]
      = .ok [Arg.val (Value.int 1), Arg.val (Value.int 2)] := rfl

/-- C3 (amended): positional arguments bind to the declared parameter
names in order (the first `min(argc, len(args))` bound slots are exactly
the positional values); remaining declared parameters bind by name from
the keyword dictionary (`missing` when absent); when the macro does not
accept catch-all kwargs, a keyword argument whose name is not an unbound
parameter raises a `TypeError` at call time, except the special keyword
`caller` when the macro accepts a caller block, which is consumed as the
synthesized caller pseudo-parameter; when the macro does not accept
catch-all varargs, more positional arguments than declared parameters
raise a `TypeError` at call time. -/
theorem C3_macro_binding (m : MacroVal) (args : List Value) (kwargs : List (String × Value)) :
    (∀ l, m.call args kwargs = .ok l →
      l.take (min m.argumentCount args.length) = (args.take m.argumentCount).map Arg.val)
    ∧ ((m.arguments.drop (min m.argumentCount args.length)).Nodup →
      ∀ l, m.call args kwargs = .ok l →
      ∀ j (hj : j < m.arguments.length), min m.argumentCount args.length ≤ j →
        l.get? j = some (kwArgOf kwargs (m.arguments.get ⟨j, hj⟩)))
    ∧ (m.catchKwargs = false →
      ∀ k, k ∈ kwargs.map Prod.fst →
      k ∉ m.arguments.drop (min m.argumentCount args.length) →
      ¬(k = "caller" ∧ m.caller = true) →
      raisesTypeError (m.call args kwargs) = true)
    ∧ (m.catchVarargs = false → m.argumentCount < args.length →
      raisesTypeError (m.call args kwargs) = true) := by
  have hlen : ((args.take m.argumentCount).map Arg.val).length
      = min m.argumentCount args.length := by
    simp [List.length_take]
  refine ⟨?_, ?_, ?_, ?_⟩
  · intro l hok
    obtain ⟨t2, h2⟩ := call_ok_stage2_prefix m args kwargs l hok
    obtain ⟨t1, h1⟩ := stage2_prefix m (m.stage1 args kwargs)
    obtain ⟨t0, h0⟩ := stage1_prefix m args kwargs
    rw [h2, h1, h0, List.append_assoc, List.append_assoc, ← hlen, List.take_left]
  · intro hnd l hok j hj hoff
    have hac : m.argumentCount = m.arguments.length := rfl
    have hjlt : j < m.argumentCount := hac ▸ hj
    have hcond : ¬(((args.take m.argumentCount).map Arg.val).length = m.argumentCount) := by
      rw [hlen]; omega
    have hs1 : (m.stage1 args kwargs).1
        = (args.take m.argumentCount).map Arg.val
          ++ (bindNamed
              (m.arguments.drop (((args.take m.argumentCount).map Arg.val)).length) kwargs).1 := by
      simp only [MacroVal.stage1, ne_eq, hcond, not_false_iff, if_true]
    rw [hlen] at hs1
    obtain ⟨t2, h2⟩ := call_ok_stage2_prefix m args kwargs l hok
    obtain ⟨t1, h1⟩ := stage2_prefix m (m.stage1 args kwargs)
    rw [h2, h1, hs1, List.append_assoc, List.append_assoc]
    have hdroplen : (m.arguments.drop (min m.argumentCount args.length)).length
        = m.argumentCount - min m.argumentCount args.length := by
      simp [List.length_drop, hac]
    have hjo : j - min m.argumentCount args.length
        < (m.arguments.drop (min m.argumentCount args.length)).length := by
      rw [hdroplen]; omega
    rw [List.get?_append_right (by rw [hlen]; omega)]
    rw [hlen]
    rw [List.get?_append (by rw [bindNamed_length]; exact hjo)]
    rw [bindNamed_get _ kwargs hnd _ hjo]
    have hget : (m.arguments.drop (min m.argumentCount args.length)).get
        ⟨j - min m.argumentCount args.length, hjo⟩ = m.arguments.get ⟨j, hj⟩ := by
      have hq := List.get?_drop m.arguments (min m.argumentCount args.length)
        (j - min m.argumentCount args.length)
      rw [Nat.add_sub_cancel' hoff] at hq
      rw [List.get?_eq_get hjo, List.get?_eq_get hj] at hq
      exact Option.some.inj hq
    rw [hget]
  · intro hck k hkk hkn hnc
    apply call_error_of_kwargs_left m args kwargs hck
    intro hempty
    have hm := stage2_keys m (m.stage1 args kwargs) k (stage1_keys m args kwargs k hkk hkn) hnc
    rw [hempty] at hm
    simp at hm
  · intro hcv hl
    exact call_error_of_excess_positional m args kwargs hcv hl

/-- C3 witness: the amended theorem applied at concrete inputs.  A macro
with parameters `(a, b)` called with one positional argument binds `b`
by keyword; the same macro without catch-all kwargs called with the
unknown keyword `zz` raises a `TypeError`. -/
theorem C3_macro_binding_witness :
    ([Arg.val (Value.int 1), Arg.val (Value.int 2)].get? 1
        = some (kwArgOf [("b", Value.int 2)] "b"))
    ∧ raisesTypeError (MacroVal.call
        { name := "m", arguments := ["a", "b"], catchKwargs := false, catchVarargs := false,
          caller := false } [Value.int 1] [("zz", Value.int 9)]) = true :=
  ⟨(C3_macro_binding
      { name := "m", arguments := ["a", "b"], catchKwargs := false, catchVarargs := false,
        caller := false } [Value.int 1] [("b", Value.int 2)]).2.1
      (by decide) [Arg.val (Value.int 1), Arg.val (Value.int 2)] rfl 1 (by decide) (by decide),
   (C3_macro_binding
      { name := "m", arguments := ["a", "b"], catchKwargs := false, catchVarargs := false,
        caller := false } [Value.int 1] [("zz", Value.int 9)]).2.2.1
      rfl "zz" (by decide) (by decide) (by decide)⟩

/-- C8 counterexample: the claim says a macro with parameters `(a, b)`
that accepts catch-all varargs and catch-all kwargs, called with one
positional argument and one unexpected keyword, raises a `TypeError`.
Evaluating the embedded call refutes this: the unexpected keyword is
collected into the catch-all kwargs dictionary and the call returns
normally. -/
theorem C8_counterexample :
    MacroVal.call
      { name := "m", arguments := ["a", "b"], catchKwargs := true, catchVarargs := true,
        caller := false } [Value.int 5] [("c", Value.int 7)]
      = .ok [Arg.val (Value.int 5), Arg.missingArg,
             Arg.collectedKwargs [("c", Value.int 7)], Arg.collectedVarargs []] := rfl

/-- C8 (amended): a macro with parameters `(a, b)` accepting catch-all
varargs and catch-all kwargs, called with one positional argument and
one keyword argument whose name is not a declared parameter, raises
nothing: the positional argument binds to `a`, `b` receives the missing
sentinel (its default applies inside the body), and the unexpected
keyword is collected into the catch-all kwargs dictionary.  (Macro
construction is a total function in this embedding, so constructing the
macro raises nothing, as the claim states.) -/
theorem C8_catchall_kwargs_collects (v w : Value) :
    MacroVal.call
      { name := "m", arguments := ["a", "b"], catchKwargs := true, catchVarargs := true,
        caller := false } [v] [("c", w)]
      = .ok [Arg.val v, Arg.missingArg, Arg.collectedKwargs [("c", w)],
             Arg.collectedVarargs []] := rfl

/-- C4: resolving a missing name never raises: `resolve` returns a plain
Undefined value carrying the name.  Every arithmetic, comparison,
subscript or call operation on a default Undefined raises an
`UndefinedError` immediately, with a message built from the most
specific available of hint, (object, name) pair, or name alone. -/
theorem C4_undefined_laziness_and_dispatch (ctx : RtContext) (key : String)
    (u : UndefinedVal) (op : UndefOp) :
    (ctx.resolveOrMissing key = none →
      ctx.resolve key = PyVal.undef
        { cls := "Undefined", undefinedHint := none, undefinedObj := none,
          undefinedName := some key, undefinedException := "UndefinedError" })
    ∧ Undefined.applyOp u op
        = .error (.undefinedError (Undefined.undefinedMessage u))
    ∧ (∀ h, u.undefinedHint = some h → Undefined.undefinedMessage u = h)
    ∧ (u.undefinedHint = none → ∀ o n, u.undefinedObj = some o →
        u.undefinedName = some n →
        Undefined.undefinedMessage u = o ++ " has no attribute " ++ n)
    ∧ (u.undefinedHint = none → u.undefinedObj = none → ∀ n,
        u.undefinedName = some n →
        Undefined.undefinedMessage u = n ++ " is undefined") := by
  refine ⟨?_, rfl, ?_, ?_, ?_⟩
  · intro hmiss
    rw [RtContext.resolve, hmiss]
  · intro h hh
    rw [Undefined.undefinedMessage, hh]
  · intro hh o n ho hn
    rw [Undefined.undefinedMessage, hh, ho, hn]
  · intro hh ho n hn
    rw [Undefined.undefinedMessage, hh, ho, hn]

/-- C4 witness: the theorem applied at a concrete context whose layers
are missing the name `x`, and at a concrete default Undefined carrying
only the name `x`. -/
theorem C4_witness :
    (RtContext.resolve { vars := [("y", PyVal.int 1)], parent := [] } "x"
        = PyVal.undef
          { cls := "Undefined", undefinedHint := none, undefinedObj := none,
            undefinedName := some "x", undefinedException := "UndefinedError" })
    ∧ Undefined.applyOp
        { cls := "Undefined", undefinedHint := none, undefinedObj := none,
          undefinedName := some "x", undefinedException := "UndefinedError" } UndefOp.add
        = .error (.undefinedError ("x" ++ " is undefined")) := by
  refine ⟨(C4_undefined_laziness_and_dispatch
      { vars := [("y", PyVal.int 1)], parent := [] } "x"
      { cls := "Undefined", undefinedHint := none, undefinedObj := none,
        undefinedName := some "x", undefinedException := "UndefinedError" }
      UndefOp.add).1 rfl, ?_⟩
  have h := C4_undefined_laziness_and_dispatch
      { vars := [("y", PyVal.int 1)], parent := [] } "x"
      { cls := "Undefined", undefinedHint := none, undefinedObj := none,
        undefinedName := some "x", undefinedException := "UndefinedError" }
      UndefOp.add
  rw [h.2.1, h.2.2.2.2 rfl rfl "x" rfl]

/-- C10: equality on default-family Undefined values depends only on the
runtime class: the hint, source object, name and stored exception play
no role; `__ne__` is the exact negation of `__eq__`; and the hash
depends only on the class. -/
theorem C10_undefined_equality (u v : UndefinedVal) :
    (Undefined.eq u v = true ↔ u.cls = v.cls)
    ∧ Undefined.ne u v = !(Undefined.eq u v)
    ∧ (u.cls = v.cls → Undefined.hashId u = Undefined.hashId v) := by
  refine ⟨?_, rfl, ?_⟩
  · rw [Undefined.eq]
    exact beq_iff_eq
  · intro h
    rw [Undefined.hashId, Undefined.hashId, h]

theorem findRule_mem (matcher : Matcher) (state line : String) (pos : Nat)
    (rules : List LexRule) (i : Nat) (r : LexRule) (m : MatchRes)
    (h : findRule matcher state line pos rules i = some (r, m)) : r ∈ rules := by
  induction rules generalizing i with
  | nil => simp [findRule] at h
  | cons r2 rs ih =>
      rw [findRule] at h
      cases hm : matcher state i line pos with
      | some mr =>
          rw [hm] at h
          cases h
          exact List.mem_cons_self _ _
      | none =>
          rw [hm] at h
          exact List.mem_cons_of_mem _ (ih _ h)

theorem lexerRules_specNoEof (state : String) (rules : List LexRule)
    (h : lexerRules state = some rules) (r : LexRule) (hr : r ∈ rules) :
    specNoEof r.tokens = true := by
  have hall : rules.all (fun r2 => specNoEof r2.tokens) = true := by
    rw [lexerRules.eq_def] at h
    split at h
    all_goals first
      | exact Option.noConfusion h
      | (injection h with h2; subst h2; decide)
  exact List.all_eq_true.mp hall r hr

theorem emitMulti_ty (lineno : Nat) (groups : List String) (ts : List TokTy) (idx : Nat)
    (t : RawTok) (ht : t ∈ emitMulti lineno groups ts idx) : t.ty ∈ ts := by
  induction ts generalizing idx with
  | nil => simp [emitMulti] at ht
  | cons t2 ts ih =>
      rw [emitMulti] at ht
      rcases List.mem_cons.mp ht with rfl | hmem
      · exact List.mem_cons_self _ _
      · exact List.mem_cons_of_mem _ (ih _ hmem)

theorem emitTokens_noEof (lineno : Nat) (spec : TokSpec) (m : MatchRes) (t : RawTok)
    (hs : specNoEof spec = true) (ht : t ∈ emitTokens lineno spec m) :
    t.ty ≠ TokTy.str "eof" := by
  cases spec with
  | single t2 =>
      simp only [emitTokens, List.mem_singleton] at ht
      subst ht
      simpa [specNoEof] using hs
  | multi ts =>
      have hmem := emitMulti_ty lineno m.groups ts 0 t ht
      simp only [specNoEof, List.all_eq_true] at hs
      simpa using hs t.ty hmem

theorem tokeniterLoop_eof (matcher : Matcher) (lines : List String) :
    ∀ (fuel : Nat) (st : LexState) (toks : List RawTok),
    (∀ t ∈ st.acc, t.ty ≠ TokTy.str "eof") →
    tokeniterLoop matcher lines fuel st = .ok toks →
    (toks.filter (fun t => t.ty == TokTy.str "eof")).length = 1
    ∧ ∃ ln, toks.getLast? = some { lineno := ln, ty := TokTy.str "eof", value := "" } := by
  intro fuel
  induction fuel with
  | zero =>
      intro st toks hacc h
      simp [tokeniterLoop] at h
  | succ fuel ih =>
      intro st toks hacc h
      rw [tokeniterLoop] at h
      split at h
      · simp at h
      · rename_i rules hrules
        split at h
        · rename_i r m hf
          have hspec := lexerRules_specNoEof st.state rules hrules r
            (findRule_mem matcher st.state st.line st.pos rules 0 r m hf)
          have hacc2 : ∀ t ∈ st.acc ++ emitTokens st.lineno r.tokens m,
              t.ty ≠ TokTy.str "eof" := by
            intro t htm
            rcases List.mem_append.mp htm with h1 | h2
            · exact hacc t h1
            · exact emitTokens_noEof st.lineno r.tokens m t hspec h2
          split at h
          · exact ih _ toks hacc2 h
          · exact ih _ toks hacc2 h
        · split at h
          · split at h
            · simp at h
            · cases h
              refine ⟨?_, st.lineno + 1, ?_⟩
              · rw [List.filter_append]
                have hnil : st.acc.filter (fun t => t.ty == TokTy.str "eof") = [] := by
                  rw [List.filter_eq_nil]
                  intro a ha
                  simpa using hacc a ha
                rw [hnil]
                simp
              · rw [List.getLast?_append]
                rfl
          · exact ih _ toks (by simpa using hacc) h

theorem advanceN_at_eof (s : TokenStream) (hp : s.pushed = [])
    (he : s.current.ty = TOKEN_EOF) :
    ∀ n, TokenStream.advanceN n s = (List.replicate n s.current, s) := by
  have hstep : s.next = (s.current, s) := by
    rw [TokenStream.next, hp]
    simp [he]
  intro n
  induction n with
  | zero => simp [TokenStream.advanceN]
  | succ n ih =>
      rw [TokenStream.advanceN, hstep]
      simp [ih, List.replicate_succ]

/-- C5: the claim says `look()` is a net no-op on the stream position.
Evaluating the embedded `TokenStream.look` at the failing input refutes
the second half: `look` pushes the OLD current token back (instead of
the new one) and leaves `current` advanced, so the next two advances
yield the two tokens swapped.  The first half of the claim holds:
`look` does return the token immediately following the current one. -/
theorem C5_look_swaps_next_two_tokens :
    ((TokenStream.look
        { current := { lineno := 1, ty := "name", value := "a" }, pushed := [],
          iter := [{ lineno := 1, ty := "comma", value := "," },
            { lineno := 1, ty := "name", value := "b" },
            { lineno := 1, ty := "eof", value := "" }], closed := false }).1
      = { lineno := 1, ty := "comma", value := "," })
    ∧ ((TokenStream.advanceN 3 (TokenStream.look
        { current := { lineno := 1, ty := "name", value := "a" }, pushed := [],
          iter := [{ lineno := 1, ty := "comma", value := "," },
            { lineno := 1, ty := "name", value := "b" },
            { lineno := 1, ty := "eof", value := "" }], closed := false }).2).1
      = [{ lineno := 1, ty := "comma", value := "," },
         { lineno := 1, ty := "name", value := "a" },
         { lineno := 1, ty := "name", value := "b" }])
    ∧ ((TokenStream.advanceN 3
        { current := { lineno := 1, ty := "name", value := "a" }, pushed := [],
          iter := [{ lineno := 1, ty := "comma", value := "," },
            { lineno := 1, ty := "name", value := "b" },
            { lineno := 1, ty := "eof", value := "" }], closed := false }).1
      = [{ lineno := 1, ty := "name", value := "a" },
         { lineno := 1, ty := "comma", value := "," },
         { lineno := 1, ty := "name", value := "b" }])
    ∧ ([{ lineno := 1, ty := "comma", value := "," },
        { lineno := 1, ty := "name", value := "a" },
        { lineno := 1, ty := "name", value := "b" }]
      ≠ [({ lineno := 1, ty := "name", value := "a" } : Token),
         { lineno := 1, ty := "comma", value := "," },
         { lineno := 1, ty := "name", value := "b" }]) := by
  refine ⟨rfl, rfl, rfl, ?_⟩
  decide

/-- C7: every successful run of the tokenizer loop emits exactly one
`eof` token, and it is the final token emitted (the loop body can only
emit token types drawn from the rule table, which never contains `eof`;
the single `eof` is appended after the loop).  And a `TokenStream` with
no pending pushed-back tokens whose current token has type `eof` is left
unchanged by every further advance: each advance returns the same eof
token and the cursor stays put. -/
theorem C7_eof_discipline (matcher : Matcher) (lines : List String)
    (initialState : Option String) (fuel : Nat) (toks : List RawTok) (s : TokenStream) :
    (tokeniter matcher lines initialState fuel = .ok toks →
      (toks.filter (fun t => t.ty == TokTy.str "eof")).length = 1
      ∧ ∃ ln, toks.getLast? = some { lineno := ln, ty := TokTy.str "eof", value := "" })
    ∧ (s.pushed = [] → s.current.ty = TOKEN_EOF →
      ∀ n, TokenStream.advanceN n s = (List.replicate n s.current, s)) := by
  constructor
  · intro h
    exact tokeniterLoop_eof matcher lines fuel _ toks (by simp) h
  · intro hp he
    exact advanceN_at_eof s hp he

/-- C7 witness: the theorem applied to the empty source (the tokenizer
emits exactly the final eof token) and to a concrete stream sitting at
its eof token, advanced twice. -/
theorem C7_eof_discipline_witness :
    ((([{ lineno := 2, ty := TokTy.str "eof", value := "" }] : List RawTok).filter
        (fun t => t.ty == TokTy.str "eof")).length = 1
      ∧ ∃ ln, ([{ lineno := 2, ty := TokTy.str "eof", value := "" }] : List RawTok).getLast?
          = some { lineno := ln, ty := TokTy.str "eof", value := "" })
    ∧ TokenStream.advanceN 2
        { current := { lineno := 1, ty := "eof", value := "" }, pushed := [], iter := [],
          closed := false }
      = (List.replicate 2 { lineno := 1, ty := "eof", value := "" },
        { current := { lineno := 1, ty := "eof", value := "" }, pushed := [], iter := [],
          closed := false }) :=
  ⟨(C7_eof_discipline (fun _ _ _ _ => none) [] none 1
      [{ lineno := 2, ty := TokTy.str "eof", value := "" }]
      { current := { lineno := 1, ty := "eof", value := "" }, pushed := [], iter := [],
        closed := false }).1 rfl,
   (C7_eof_discipline (fun _ _ _ _ => none) [] none 1
      [{ lineno := 2, ty := TokTy.str "eof", value := "" }]
      { current := { lineno := 1, ty := "eof", value := "" }, pushed := [], iter := [],
        closed := false }).2 rfl rfl 2⟩

theorem assocLookup_isSome_iff {V : Type} (d : List (String × V)) (k : String) :
    (assocLookup d k).isSome = true ↔ k ∈ d.map Prod.fst := by
  induction d with
  | nil => simp [assocLookup]
  | cons p rest ih =>
      obtain ⟨k2, v⟩ := p
      by_cases h : k2 = k
      · subst h
        simp [assocLookup]
      · simp [assocLookup, h, ih, Ne.symm h]

theorem any_fst_eq_iff {V : Type} (d : List (String × V)) (k : String) :
    (d.any (fun p => p.fst == k)) = true ↔ k ∈ d.map Prod.fst := by
  rw [List.any_eq_true]
  constructor
  · rintro ⟨p, hp, he⟩
    have : p.fst = k := by simpa using he
    exact this ▸ List.mem_map_of_mem Prod.fst hp
  · intro hm
    obtain ⟨p, hp, he⟩ := List.mem_map.mp hm
    exact ⟨p, hp, by simpa using he⟩

theorem assocLookup_mapSet {V : Type} (d : List (String × V)) (k : String) (v : V)
    (hmem : k ∈ d.map Prod.fst) :
    assocLookup (d.map (fun p => if p.fst = k then (k, v) else p)) k = some v := by
  induction d with
  | nil => simp at hmem
  | cons p rest ih =>
      obtain ⟨k2, v2⟩ := p
      by_cases h : k2 = k
      · subst h
        simp only [List.map_cons]
        simp [assocLookup]
      · have hm2 : k ∈ rest.map Prod.fst := by
          simp only [List.map_cons, List.mem_cons] at hmem
          rcases hmem with h1 | h1
          · exact absurd h1.symm h
          · exact h1
        simp only [List.map_cons]
        rw [if_neg (show ¬((k2, v2).1 = k) from h)]
        simp [assocLookup, h, ih hm2]

theorem assocLookup_mapSet_ne {V : Type} (d : List (String × V)) (k k2 : String) (v : V)
    (h : k2 ≠ k) :
    assocLookup (d.map (fun p => if p.fst = k then (k, v) else p)) k2
      = assocLookup d k2 := by
  induction d with
  | nil => rfl
  | cons p rest ih =>
      obtain ⟨k3, v3⟩ := p
      by_cases h3 : k3 = k
      · subst h3
        simp only [List.map_cons]
        simp [assocLookup, Ne.symm h, h, ih]
      · simp only [List.map_cons]
        rw [if_neg (show ¬((k3, v3).1 = k) from h3)]
        by_cases h4 : k3 = k2 <;> simp [assocLookup, h3, h4, ih]

theorem assocLookup_append_single {V : Type} (d : List (String × V)) (k : String) (v : V)
    (hnone : assocLookup d k = none) :
    assocLookup (d ++ [(k, v)]) k = some v := by
  induction d with
  | nil => simp [assocLookup]
  | cons p rest ih =>
      obtain ⟨k2, v2⟩ := p
      by_cases h : k2 = k
      · rw [assocLookup, if_pos h] at hnone
        cases hnone
      · rw [assocLookup, if_neg h] at hnone
        rw [List.cons_append, assocLookup, if_neg h]
        exact ih hnone

theorem assocLookup_append_single_ne {V : Type} (d : List (String × V)) (k k2 : String)
    (v : V) (h : k2 ≠ k) :
    assocLookup (d ++ [(k, v)]) k2 = assocLookup d k2 := by
  induction d with
  | nil => simp [assocLookup, Ne.symm h]
  | cons p rest ih =>
      obtain ⟨k3, v3⟩ := p
      by_cases h3 : k3 = k2 <;> simp [assocLookup, h3, ih]

theorem assocLookup_assocSet_self {V : Type} (d : List (String × V)) (k : String) (v : V) :
    assocLookup (assocSet d k v) k = some v := by
  rw [assocSet]
  split
  · rename_i hany
    exact assocLookup_mapSet d k v ((any_fst_eq_iff d k).mp hany)
  · rename_i hany
    apply assocLookup_append_single
    cases hl : assocLookup d k with
    | none => rfl
    | some v2 =>
        exfalso
        apply hany
        rw [any_fst_eq_iff, ← assocLookup_isSome_iff, hl]
        rfl

theorem assocLookup_assocSet_ne {V : Type} (d : List (String × V)) (k k2 : String) (v : V)
    (h : k2 ≠ k) :
    assocLookup (assocSet d k v) k2 = assocLookup d k2 := by
  rw [assocSet]
  split
  · exact assocLookup_mapSet_ne d k k2 v h
  · exact assocLookup_append_single_ne d k k2 v h

theorem assocLookup_assocRemove_self {V : Type} (d : List (String × V)) (k : String) :
    assocLookup (assocRemove d k) k = none := by
  induction d with
  | nil => rfl
  | cons p rest ih =>
      obtain ⟨k2, v⟩ := p
      by_cases h : k2 = k
      · simpa [assocRemove, List.filter_cons, h] using ih
      · simpa [assocRemove, List.filter_cons, h, assocLookup] using ih

theorem assocLookup_assocRemove_ne {V : Type} (d : List (String × V)) (k k2 : String)
    (h : k2 ≠ k) :
    assocLookup (assocRemove d k) k2 = assocLookup d k2 := by
  induction d with
  | nil => rfl
  | cons p rest ih =>
      obtain ⟨k3, v⟩ := p
      rw [assocRemove, List.filter_cons]
      rw [assocRemove] at ih
      by_cases h3 : k3 = k
      · subst h3
        rw [if_neg (by simp)]
        rw [ih]
        conv_rhs => rw [assocLookup]
        rw [if_neg (fun hc => h hc.symm)]
      · rw [if_pos (by simp [h3])]
        have ih2 : assocLookup (List.filter (fun p => !decide (p.1 = k)) rest) k2
            = assocLookup rest k2 := by simpa using ih
        by_cases h4 : k3 = k2 <;> simp [assocLookup, h4, ih2]

/-- C6: on a well-formed cache at capacity `c ≥ 1`, setting a new
distinct key evicts exactly the least-recently-accessed key (the front
of the queue): that key alone disappears from the mapping, the other
entries and the new one remain, and the new key becomes most recently
used; a successful `__getitem__` on an existing key returns its value,
leaves the mapping unchanged and moves the key to the back of the
queue, making it the last candidate for eviction. -/
theorem C6_lru_eviction {V : Type} (c : LRUCacheV V) (k k0 : String) (v rv : V)
    (hwf : c.wf) (hcap : c.mapping.length = c.capacity) (hpos : 1 ≤ c.capacity) :
    (assocLookup c.mapping k = none →
      ∃ lru rest, c.queue = lru :: rest
        ∧ ∃ c2, c.setitem k v = .ok c2
          ∧ assocLookup c2.mapping lru = none
          ∧ assocLookup c2.mapping k = some v
          ∧ (∀ k2, k2 ≠ lru → k2 ≠ k →
              assocLookup c2.mapping k2 = assocLookup c.mapping k2)
          ∧ c2.queue = rest ++ [k])
    ∧ (assocLookup c.mapping k0 = some rv →
      ∃ c3, c.getitem k0 = .ok (rv, c3) ∧ c3.mapping = c.mapping
        ∧ c3.queue.getLast? = some k0) := by
  obtain ⟨hqnd, hmnd, hqm, hmq⟩ := hwf
  constructor
  · intro hnew
    cases hq : c.queue with
    | nil =>
        exfalso
        cases hm : c.mapping with
        | nil =>
            rw [hm] at hcap
            simp at hcap
            omega
        | cons p rest =>
            have hmem : p.fst ∈ c.mapping.map Prod.fst := by
              rw [hm]
              simp
            have := hmq _ hmem
            rw [hq] at this
            simp at this
    | cons lru rest =>
        refine ⟨lru, rest, rfl, ?_⟩
        have hlru_mem : lru ∈ c.mapping.map Prod.fst := hqm lru (by rw [hq]; simp)
        have hlru_some : (assocLookup c.mapping lru).isSome = true :=
          (assocLookup_isSome_iff _ _).mpr hlru_mem
        have hkne : k ∉ c.mapping.map Prod.fst := by
          intro hmem
          rw [← assocLookup_isSome_iff, hnew] at hmem
          simp at hmem
        have hlk : lru ≠ k := fun he => hkne (he ▸ hlru_mem)
        refine ⟨{ c with
            mapping := assocSet (assocRemove c.mapping lru) k v
            queue := rest ++ [k] }, ?_, ?_, ?_, ?_, rfl⟩
        · rw [LRUCacheV.setitem, hnew]
          rw [if_neg (by simp)]
          rw [if_pos hcap, hq]
          dsimp only
          rw [if_pos hlru_some]
        · rw [assocLookup_assocSet_ne _ _ _ _ hlk, assocLookup_assocRemove_self]
        · rw [assocLookup_assocSet_self]
        · intro k2 h2l h2k
          rw [assocLookup_assocSet_ne _ _ _ _ h2k, assocLookup_assocRemove_ne _ _ _ h2l]
  · intro hget
    have hk0mem : k0 ∈ c.mapping.map Prod.fst := by
      rw [← assocLookup_isSome_iff, hget]
      rfl
    have hk0q : k0 ∈ c.queue := hmq _ hk0mem
    cases hl : c.queue.getLast? with
    | none =>
        exfalso
        rw [List.getLast?_eq_none_iff] at hl
        rw [hl] at hk0q
        simp at hk0q
    | some last =>
        by_cases hne : last ≠ k0
        · refine ⟨{ c with queue := dequeRemoveOrKeep c.queue k0 ++ [k0] }, ?_, rfl, ?_⟩
          · rw [LRUCacheV.getitem, hget, hl]
            dsimp only
            rw [if_pos hne]
          · rw [List.getLast?_append]
            rfl
        · push_neg at hne
          refine ⟨c, ?_, rfl, by rw [hl, hne]⟩
          rw [LRUCacheV.getitem, hget, hl]
          dsimp only
          rw [if_neg (by simp [hne])]

/-- C6 witness: the theorem applied to a concrete capacity-2 cache
holding `a` (least recently used) and `b`: setting `c` evicts exactly
`a`, and getting `a` moves it to most recently used. -/
theorem C6_lru_eviction_witness :
    (∃ lru rest, (["a", "b"] : List String) = lru :: rest
      ∧ ∃ c2, LRUCacheV.setitem
          { capacity := 2, mapping := [("a", PyVal.int 1), ("b", PyVal.int 2)],
            queue := ["a", "b"] } "c" (PyVal.int 3) = .ok c2
        ∧ assocLookup c2.mapping lru = none
        ∧ assocLookup c2.mapping "c" = some (PyVal.int 3)
        ∧ (∀ k2, k2 ≠ lru → k2 ≠ "c" →
            assocLookup c2.mapping k2
              = assocLookup [("a", PyVal.int 1), ("b", PyVal.int 2)] k2)
        ∧ c2.queue = rest ++ ["c"])
    ∧ (∃ c3, LRUCacheV.getitem
          { capacity := 2, mapping := [("a", PyVal.int 1), ("b", PyVal.int 2)],
            queue := ["a", "b"] } "a" = .ok (PyVal.int 1, c3)
        ∧ c3.mapping = [("a", PyVal.int 1), ("b", PyVal.int 2)]
        ∧ c3.queue.getLast? = some "a") :=
  ⟨(C6_lru_eviction
      { capacity := 2, mapping := [("a", PyVal.int 1), ("b", PyVal.int 2)],
        queue := ["a", "b"] } "c" "a" (PyVal.int 3) (PyVal.int 1)
      ⟨by decide, by decide, by decide, by decide⟩ rfl (by decide)).1 rfl,
   (C6_lru_eviction
      { capacity := 2, mapping := [("a", PyVal.int 1), ("b", PyVal.int 2)],
        queue := ["a", "b"] } "c" "a" (PyVal.int 3) (PyVal.int 1)
      ⟨by decide, by decide, by decide, by decide⟩ rfl (by decide)).2 rfl⟩

/-- C10 witness: two default Undefineds for different missing names (and
different hints and objects) compare equal, their inequality test is
false, and their hashes agree. -/
theorem C10_undefined_equality_witness :
    (Undefined.eq
        { cls := "Undefined", undefinedHint := some "h1", undefinedObj := some "o1",
          undefinedName := some "x", undefinedException := "UndefinedError" }
        { cls := "Undefined", undefinedHint := none, undefinedObj := none,
          undefinedName := some "y", undefinedException := "UndefinedError" } = true)
    ∧ (Undefined.hashId
        { cls := "Undefined", undefinedHint := some "h1", undefinedObj := some "o1",
          undefinedName := some "x", undefinedException := "UndefinedError" }
      = Undefined.hashId
        { cls := "Undefined", undefinedHint := none, undefinedObj := none,
          undefinedName := some "y", undefinedException := "UndefinedError" }) := by
  have h := C10_undefined_equality
      { cls := "Undefined", undefinedHint := some "h1", undefinedObj := some "o1",
        undefinedName := some "x", undefinedException := "UndefinedError" }
      { cls := "Undefined", undefinedHint := none, undefinedObj := none,
        undefinedName := some "y", undefinedException := "UndefinedError" }
  exact ⟨h.1.mpr rfl, h.2.2 rfl⟩

end Jinja
